import Mathlib

/-!
# Verification of the `distsign` package

A shallow embedding of the `distsign` Go package (signature and validation
of distributable files: root keys sign signing-key bundles, signing keys
sign file digests, and a client downloads and validates files).

Modelling choices:

* Byte strings are `List Nat` ("Bytes").  The Ed25519 primitives from
  `crypto/ed25519` are modelled symbolically (idealized crypto): a
  signature is the 64-entry byte string `mkSig pub msg mode`, and
  `VerifyWithOptions` succeeds exactly on that value, after the same
  length and mode checks the Go function performs (message must be a
  64-byte digest in pre-hashed mode; public key must be 32 bytes;
  signature must be 64 bytes).
* PEM framing (`encoding/pem`) is modelled with explicit begin and end
  markers and a length field.  `pemDecode` mirrors `pem.Decode`: it
  scans for the first well-formed block, skipping data that does not
  parse, and returns the block together with the remaining data; it
  returns `none` when no well-formed block occurs anywhere.
* Effects are explicit: a `World` carries the HTTP responses
  (`http : String → Option Bytes`, `none` meaning a transport error), a
  file system as an association list, and per-path success flags for
  `os.Create`, `io.Copy` and `File.Close`.  `download` additionally
  reports whether the destination file was opened and whether it was
  closed (the Go code closes it both via `defer` and explicitly).
-/

namespace Distsign

/-- Byte strings of the model. -/
abbrev Bytes := List Nat

/-- Stands for the PEM tag string "PRIVATE KEY" (`pemTypePrivate`). -/
def pemTypePrivate : Nat := 1

/-- Stands for the PEM tag string "PUBLIC KEY" (`pemTypePublic`). -/
def pemTypePublic : Nat := 2

/-- `downloadSizeLimit = 1 << 29` (512MB). -/
def downloadSizeLimit : Nat := 2 ^ 29

/-- `signingKeysSizeLimit = 1 << 20` (1MB). -/
def signingKeysSizeLimit : Nat := 2 ^ 20

/-- `signatureSizeLimit = ed25519.SignatureSize = 64`. -/
def signatureSizeLimit : Nat := 64

/-- `ed25519.PublicKeySize = 32`. -/
def publicKeySize : Nat := 32

/-- `ed25519.PrivateKeySize = 64`. -/
def privateKeySize : Nat := 64

/-- The two signing modes used by the package: `crypto.Hash(0)` (raw
Ed25519, used for signing-key bundles) and `crypto.SHA512` (Ed25519ph,
used for package digests). -/
inductive HashMode where
  | raw
  | sha512
deriving DecidableEq

/-- `ed25519.Options`: only the `Hash` field is used by the package. -/
structure Ed25519Options where
  hash : HashMode
deriving DecidableEq

/-- Injective-enough encoding of a byte list into a natural, used to
form symbolic signature and digest values. -/
def encList (l : Bytes) : Nat := l.foldl (fun acc a => acc * 1000003 + (a + 1)) 0

/-- The 32-byte public key of the key pair with seed `k`. -/
def pubKeyBytes (k : Nat) : Bytes := k :: List.replicate 31 0

/-- The 64-byte private key of the key pair with seed `k`. -/
def privKeyBytes (k : Nat) : Bytes := k :: List.replicate 63 0

/-- The public key determined by a private key (in real Ed25519 the
private key embeds the public half). -/
def privToPub (priv : Bytes) : Bytes := priv.headD 0 :: List.replicate 31 0

def hashTag : HashMode → Nat
  | .raw => 0
  | .sha512 => 1

/-- The unique 64-byte signature of `msg` by the key pair of `pub`
in mode `h` (symbolic model of Ed25519 signatures). -/
def mkSig (pub : Bytes) (msg : Bytes) (h : HashMode) : Bytes :=
  Nat.pair (encList pub) (Nat.pair (hashTag h) (encList msg)) :: List.replicate 63 0

/-- Symbolic SHA-512: a 64-byte digest determined by the input
(model of `crypto/sha512`). -/
def sha512sum (b : Bytes) : Bytes := Nat.pair 2 (encList b) :: List.replicate 63 0

/-- Model of `ed25519.VerifyWithOptions` as a Boolean (the Go function
returns a nil error exactly when verification succeeds): in pre-hashed
mode the message must be a 64-byte digest; the signature must have the
scheme size; and the signature must be the one produced by `pub`'s key
pair over `msg` in the requested mode.  (Go panics on a wrong public
key size; the model returns false there, which is equivalent for the
call sites in this package since all keys go through size checks.) -/
def VerifyWithOptions (pub msg sig : Bytes) (opts : Ed25519Options) : Bool :=
  (match opts.hash with
   | .sha512 => decide (msg.length = 64)
   | .raw => true)
  && decide (pub.length = publicKeySize)
  && decide (sig.length = signatureSizeLimit)
  && decide (sig = mkSig pub msg opts.hash)

/-- `verifyAny` reports whether `sig` is valid over `msg` for any of the
`keys` (the Go loop returns true on the first success, which is `any`). -/
def verifyAny (keys : List Bytes) (msg sig : Bytes) (opts : Ed25519Options) : Bool :=
  keys.any fun k => VerifyWithOptions k msg sig opts

/-- `Signer` wraps a single Ed25519 private key. -/
structure Signer where
  key : Bytes
deriving DecidableEq

/-- Model of `crypto.Signer.Sign` for an Ed25519 private key with the
given hash option: in `crypto.SHA512` (Ed25519ph) mode the message must
be a 64-byte digest, otherwise signing fails. -/
def Signer.Sign (s : Signer) (msg : Bytes) (h : HashMode) : Except String Bytes :=
  if s.key.length ≠ privateKeySize then .error "ed25519: bad private key length"
  else
    match h with
    | .raw => .ok (mkSig (privToPub s.key) msg .raw)
    | .sha512 =>
        if msg.length = 64 then .ok (mkSig (privToPub s.key) msg .sha512)
        else .error "ed25519: bad message hash length for Ed25519ph"

/-- `RootKey` is a root key `Signer` used to sign signing keys. -/
def RootKey := Signer

/-- `SigningKey` is a signing key `Signer` used to sign packages. -/
def SigningKey := Signer

/-- `RootKey.SignSigningKeys`: sign the bundle bytes with `crypto.Hash(0)`. -/
def RootKey.SignSigningKeys (s : RootKey) (pubBundle : Bytes) : Except String Bytes :=
  Signer.Sign s pubBundle .raw

/-- `SigningKey.SignPackageHash`: sign a SHA-512 digest with `crypto.SHA512`. -/
def SigningKey.SignPackageHash (s : SigningKey) (dig : Bytes) : Except String Bytes :=
  Signer.Sign s dig .sha512

/-- Marker standing for a "-----BEGIN ...-----" line. -/
def pemBeginMark : Nat := 256

/-- Marker standing for a "-----END ...-----" line. -/
def pemEndMark : Nat := 257

/-- Encoding of one PEM block with tag `ty` and body `payload`
(model of `pem.EncodeToMemory`). -/
def pemEncodeBlock (ty : Nat) (payload : Bytes) : Bytes :=
  pemBeginMark :: ty :: payload.length :: payload ++ [pemEndMark]

/-- Try to parse one block right after a begin marker: tag, length,
payload, end marker.  Returns the tag, payload and remaining data. -/
def tryBlock (bs : Bytes) : Option (Nat × Bytes × Bytes) :=
  match bs with
  | ty :: len :: rest =>
      match rest.drop len with
      | e :: rest2 =>
          if (rest.take len).length = len ∧ e = pemEndMark then
            some (ty, rest.take len, rest2)
          else none
      | [] => none
  | _ => none

/-- Model of `pem.Decode`: find the first well-formed PEM block in the
input, skipping any data that does not parse as a block (as the Go
decoder does), and return its tag, its payload, and the data following
the block; `none` when no well-formed block occurs. -/
def pemDecode : Bytes → Option (Nat × Bytes × Bytes)
  | [] => none
  | b :: bs =>
      if b = pemBeginMark then
        match tryBlock bs with
        | some r => some r
        | none => pemDecode bs
      else pemDecode bs

/-- `GenerateKey` for the key pair with seed `k`: the PEM encodings of
the private and public halves. -/
def GenerateKey (k : Nat) : Bytes × Bytes :=
  (pemEncodeBlock pemTypePrivate (privKeyBytes k),
   pemEncodeBlock pemTypePublic (pubKeyBytes k))

/-- The errors produced by the package. -/
inductive DistErr where
  | fetchErr (url : String)
  | createErr (path : String)
  | copyErr (path : String)
  | closeErr (path : String)
  | readErr (path : String)
  | keyParseErr (path : String)
  | parseErr (msg : String)
  | noKeysErr (url : String)
  | trustErr (sigURL keyURL : String)
  | verifyErr (sigURL srcURL : String)
deriving DecidableEq

/-- `parsePublicKey`: decode one PEM block, check the tag is
"PUBLIC KEY" and the payload has the Ed25519 public key size; return
the key and the remaining data. -/
def parsePublicKey (data : Bytes) : Except DistErr (Bytes × Bytes) :=
  match pemDecode data with
  | none => .error (.parseErr "failed to decode PEM data")
  | some (ty, bytes, rest) =>
      if ty ≠ pemTypePublic then .error (.parseErr "PEM type mismatch")
      else if bytes.length ≠ publicKeySize then
        .error (.parseErr "public key has incorrect length for an Ed25519 public key")
      else .ok (bytes, rest)

/-- `parsePrivateKey`: decode one PEM block, reject trailing data, check
the tag is "PRIVATE KEY" and the payload has the Ed25519 private key
size. -/
def parsePrivateKey (data : Bytes) : Except DistErr Bytes :=
  match pemDecode data with
  | none => .error (.parseErr "failed to decode PEM data")
  | some (ty, bytes, rest) =>
      if rest ≠ [] then .error (.parseErr "trailing PEM data")
      else if ty ≠ pemTypePrivate then .error (.parseErr "PEM type mismatch")
      else if bytes.length ≠ privateKeySize then
        .error (.parseErr "private key has incorrect length for an Ed25519 private key")
      else .ok bytes

/-- The parse loop of `Client.signingKeys` (`for len(raw) > 0`),
written with a fuel argument so that it is structurally recursive; the
fuel `raw.length` always suffices because each decoded block consumes
at least one byte. -/
def parseAllKeysAux : Nat → Bytes → Except DistErr (List Bytes)
  | _, [] => .ok []
  | 0, _ :: _ => .error (.parseErr "failed to decode PEM data")
  | fuel + 1, raw =>
      match parsePublicKey raw with
      | .error e => .error e
      | .ok (pub, rest) =>
          match parseAllKeysAux fuel rest with
          | .error e => .error e
          | .ok keys => .ok (pub :: keys)

/-- All public keys of a bundle, in order (the parse loop of
`Client.signingKeys`). -/
def parseAllKeys (raw : Bytes) : Except DistErr (List Bytes) :=
  parseAllKeysAux raw.length raw

/-- The file system as an association list; the most recent entry for a
path shadows older ones. -/
abbrev FileSys := List (String × Bytes)

/-- Look a path up in the file system (model of reading a file;
`none` means the file is unreadable). -/
def lookupFile : FileSys → String → Option Bytes
  | [], _ => none
  | (q, v) :: rest, p => if q = p then some v else lookupFile rest p

/-- Write `v` at path `p` (model of `os.Create` plus writing). -/
def setFile (fs : FileSys) (p : String) (v : Bytes) : FileSys := (p, v) :: fs

/-- The environment one run executes in: HTTP responses (`none` is a
transport error in `http.Get`), the local file system, and per-path
success of `os.Create`, of the writes done by `io.Copy`, and of the
final `File.Close`.  `writtenLen` is how many bytes `io.Copy` manages
to write before failing, when it fails. -/
structure World where
  http : String → Option Bytes
  fs : FileSys
  createOk : String → Bool
  copyOk : String → Bool
  closeOk : String → Bool
  writtenLen : String → Nat

/-- `fetch` reads the response body for `url` into memory, up to
`limit` bytes (`io.ReadAll(io.LimitReader(resp.Body, limit))`): a
transport error is an error, otherwise the first `limit` bytes are
returned with no error, whatever the body length. -/
def fetch (w : World) (url : String) (limit : Nat) : Except DistErr Bytes :=
  match w.http url with
  | none => .error (.fetchErr url)
  | some body => .ok (body.take limit)

deriving instance DecidableEq for Except

/-- Result of `download`: the returned value (SHA-512 digest on
success), the file system afterwards, and whether the destination file
was opened and whether it was closed. -/
structure DlResult where
  res : Except DistErr Bytes
  fs : FileSys
  opened : Bool
  closed : Bool
deriving DecidableEq

/-- `download` writes the response body of `url` into a local file at
`dst`, up to `limit` bytes, teeing the same bytes into a SHA-512
accumulator; on success it returns the digest.  The destination file is
closed on every path after it is opened (`defer f.Close()` plus the
explicit close), and a failing explicit close turns an otherwise
successful download into an error.  On an `io.Copy` failure the file
holds the prefix written so far. -/
def download (w : World) (url dst : String) (limit : Nat) : DlResult :=
  match w.http url with
  | none => ⟨.error (.fetchErr url), w.fs, false, false⟩
  | some body =>
      if w.createOk dst then
        let content := body.take limit
        if w.copyOk dst then
          if w.closeOk dst then
            ⟨.ok (sha512sum content), setFile w.fs dst content, true, true⟩
          else ⟨.error (.closeErr dst), setFile w.fs dst content, true, true⟩
        else
          ⟨.error (.copyErr dst), setFile w.fs dst (content.take (w.writtenLen dst)),
            true, true⟩
      else ⟨.error (.createErr dst), w.fs, false, false⟩

/-- `NewSigner` reads and parses a PEM private key file; a parse
failure is reported as one wrapped error ("failed to parse ..."). -/
def NewSigner (w : World) (privKeyPath : String) : Except DistErr Signer :=
  match lookupFile w.fs privKeyPath with
  | none => .error (.readErr privKeyPath)
  | some raw =>
      match parsePrivateKey raw with
      | .error _ => .error (.keyParseErr privKeyPath)
      | .ok k => .ok ⟨k⟩

/-- A `Client` downloads and validates files from a distribution
server: the embedded root public keys and the server base URL. -/
structure Client where
  roots : List Bytes
  pkgsAddr : String

/-- `Client.url`: join the base URL and a path (`URL.JoinPath`). -/
def Client.url (c : Client) (path : String) : String :=
  c.pkgsAddr ++ "/" ++ path

/-- `Client.signingKeys` fetches the current signing keys and their
signature, validates them against the roots with raw Ed25519, parses
the bundle, and rejects an empty key list. -/
def Client.signingKeys (c : Client) (w : World) : Except DistErr (List Bytes) :=
  let keyURL := c.url "distsign.pub"
  let sigURL := keyURL ++ ".sig"
  match fetch w keyURL signingKeysSizeLimit with
  | .error e => .error e
  | .ok raw =>
      match fetch w sigURL signatureSizeLimit with
      | .error e => .error e
      | .ok sig =>
          if verifyAny c.roots raw sig ⟨HashMode.raw⟩ then
            match parseAllKeys raw with
            | .error e => .error e
            | .ok keys =>
                if keys = [] then .error (.noKeysErr keyURL) else .ok keys
          else .error (.trustErr sigURL keyURL)

/-- `Client.Download` fetches a fresh signing-key bundle, downloads the
artifact to `dstPath` while hashing it, fetches the artifact signature,
and verifies the digest against any bundle key in SHA-512 (Ed25519ph)
mode.  The pair also returns the file system after the run. -/
def Client.Download (c : Client) (w : World) (srcPath dstPath : String) :
    Except DistErr Unit × FileSys :=
  match c.signingKeys w with
  | .error e => (.error e, w.fs)
  | .ok sigPub =>
      let srcURL := c.url srcPath
      let sigURL := srcURL ++ ".sig"
      let dl := download w srcURL dstPath downloadSizeLimit
      match dl.res with
      | .error e => (.error e, dl.fs)
      | .ok hash =>
          match fetch w sigURL signatureSizeLimit with
          | .error e => (.error e, dl.fs)
          | .ok sig =>
              if verifyAny sigPub hash sig ⟨HashMode.sha512⟩ then (.ok (), dl.fs)
              else (.error (.verifyErr sigURL srcURL), dl.fs)

/-- Whether an `Except` is an error. -/
def isErr {ε α : Type} : Except ε α → Bool
  | .error _ => true
  | .ok _ => false

/-- A world in which every HTTP request fails at the transport. -/
def wNone : World :=
  ⟨fun _ => none, [], fun _ => true, fun _ => true, fun _ => true, fun _ => 0⟩

/-- The public half of the root key pair with seed 1. -/
def rootPub1 : Bytes := pubKeyBytes 1

/-- A client trusting exactly the root key with seed 1. -/
def cRoot1 : Client := ⟨[rootPub1], "https://pkgs"⟩

/-- A client with an empty root key set. -/
def cEmpty : Client := ⟨[], "https://pkgs"⟩

/-- A bundle whose data starts with a malformed (truncated) PEM block,
followed by one well-formed public-key block for the key with seed 2. -/
def badBundle : Bytes :=
  [pemBeginMark, pemTypePublic] ++ pemEncodeBlock pemTypePublic (pubKeyBytes 2)

/-- A valid root signature (raw mode) over `badBundle`. -/
def badBundleSig : Bytes := mkSig rootPub1 badBundle .raw

/-- World serving `badBundle` with its valid root signature. -/
def wBadBundle : World :=
  ⟨fun u =>
      if u = "https://pkgs/distsign.pub" then some badBundle
      else if u = "https://pkgs/distsign.pub.sig" then some badBundleSig
      else none,
    [], fun _ => true, fun _ => true, fun _ => true, fun _ => 0⟩

/-- A valid root signature (raw mode) over the empty bundle. -/
def emptyBundleSig : Bytes := mkSig rootPub1 [] .raw

/-- World serving a correctly signed empty signing-key bundle. -/
def wEmptyBundle : World :=
  ⟨fun u =>
      if u = "https://pkgs/distsign.pub" then some []
      else if u = "https://pkgs/distsign.pub.sig" then some emptyBundleSig
      else none,
    [], fun _ => true, fun _ => true, fun _ => true, fun _ => 0⟩

/-- A well-formed one-key bundle for the signing key with seed 2. -/
def goodBundle : Bytes := pemEncodeBlock pemTypePublic (pubKeyBytes 2)

/-- A valid root signature (raw mode) over `goodBundle`. -/
def goodBundleSig : Bytes := mkSig rootPub1 goodBundle .raw

/-- A signature response body that is one byte longer than the
Ed25519 signature size: the valid signature with a trailing byte. -/
def oversizedSigBody : Bytes := goodBundleSig ++ [9]

/-- World serving `goodBundle` whose signature response body has
length 65, not the scheme's fixed 64. -/
def wOversizedSig : World :=
  ⟨fun u =>
      if u = "https://pkgs/distsign.pub" then some goodBundle
      else if u = "https://pkgs/distsign.pub.sig" then some oversizedSigBody
      else none,
    [], fun _ => true, fun _ => true, fun _ => true, fun _ => 0⟩

/-- World in which every URL serves the three-byte body `[1, 2, 3]`
and all file-system operations succeed. -/
def wOK : World :=
  ⟨fun _ => some [1, 2, 3], [], fun _ => true, fun _ => true, fun _ => true, fun _ => 0⟩

/-- World in which the body downloads fine but the final close of the
destination file fails. -/
def wCloseFail : World :=
  ⟨fun _ => some [1, 2, 3], [], fun _ => true, fun _ => true, fun _ => false, fun _ => 0⟩

/-- World whose file system holds one well-formed PEM private key
file at "key.pem" (the private key with seed 5). -/
def wKey : World :=
  ⟨fun _ => none, [("key.pem", pemEncodeBlock pemTypePrivate (privKeyBytes 5))],
    fun _ => true, fun _ => true, fun _ => true, fun _ => 0⟩

lemma pubKeyBytes_length (k : Nat) : (pubKeyBytes k).length = publicKeySize := by
  simp [pubKeyBytes, publicKeySize]

lemma mkSig_length (pub msg : Bytes) (h : HashMode) :
    (mkSig pub msg h).length = signatureSizeLimit := by
  simp [mkSig, signatureSizeLimit]

lemma sha512sum_length (b : Bytes) : (sha512sum b).length = 64 := by
  simp [sha512sum]

lemma privToPub_privKeyBytes (k : Nat) : privToPub (privKeyBytes k) = pubKeyBytes k := rfl

/-- Verification succeeds on the signature produced for the same key,
message and mode (given the key has the right size and, in pre-hashed
mode, the message is a 64-byte digest). -/
lemma VerifyWithOptions_mkSig (pub msg : Bytes) (h : HashMode)
    (hpub : pub.length = publicKeySize) (hmsg : h = .sha512 → msg.length = 64) :
    VerifyWithOptions pub msg (mkSig pub msg h) ⟨h⟩ = true := by
  cases h with
  | raw => simp [VerifyWithOptions, hpub, mkSig_length]
  | sha512 => simp [VerifyWithOptions, hpub, mkSig_length, hmsg rfl]

/-- Characterization of `parsePrivateKey` success. -/
lemma parsePrivateKey_ok_iff (data k : Bytes) :
    parsePrivateKey data = .ok k ↔
      (pemDecode data = some (pemTypePrivate, k, []) ∧ k.length = privateKeySize) := by
  cases hd : pemDecode data with
  | none => simp [parsePrivateKey, hd]
  | some t =>
      obtain ⟨ty, bytes, rest⟩ := t
      simp only [parsePrivateKey, hd]
      constructor
      · intro h
        split_ifs at h with h1 h2 h3
        cases h
        rw [not_ne_iff] at h1 h2 h3
        subst h1; subst h2
        exact ⟨rfl, h3⟩
      · intro ⟨h1, h2⟩
        cases h1
        simp [h2]

/-- If the decoded block has a wrong tag or a wrong key size, then
`parsePublicKey` fails. -/
lemma parsePublicKey_error_of_bad (raw : Bytes) (ty : Nat) (bytes rest : Bytes)
    (h : pemDecode raw = some (ty, bytes, rest))
    (hbad : ty ≠ pemTypePublic ∨ bytes.length ≠ publicKeySize) :
    ∃ e, parsePublicKey raw = .error e := by
  unfold parsePublicKey
  rw [h]
  rcases hbad with hb | hb
  · simp [hb]
  · by_cases hty : ty = pemTypePublic
    · simp [hty, hb]
    · simp [hty]

/-- A parsed block consumes at least the begin marker: the remaining
data after `tryBlock` is strictly shorter than its input. -/
lemma tryBlock_rest_lt (bs : Bytes) (ty : Nat) (payload rest : Bytes)
    (h : tryBlock bs = some (ty, payload, rest)) : rest.length < bs.length := by
  cases bs with
  | nil => simp [tryBlock] at h
  | cons t bs1 =>
      cases bs1 with
      | nil => simp [tryBlock] at h
      | cons len r =>
          simp only [tryBlock] at h
          cases hd : r.drop len with
          | nil => simp only [hd] at h; exact Option.noConfusion h
          | cons e r2 =>
              simp only [hd] at h
              split_ifs at h with hc
              cases h
              have hdl : (r.drop len).length = rest.length + 1 := by rw [hd]; simp
              rw [List.length_drop] at hdl
              simp only [List.length_cons]
              omega

/-- The remaining data after `pemDecode` is strictly shorter than its
input. -/
lemma pemDecode_rest_lt : ∀ (data : Bytes) (ty : Nat) (payload rest : Bytes),
    pemDecode data = some (ty, payload, rest) → rest.length < data.length := by
  intro data
  induction data with
  | nil => intro ty payload rest h; simp [pemDecode] at h
  | cons b bs ih =>
      intro ty payload rest h
      simp only [pemDecode] at h
      by_cases hb : b = pemBeginMark
      · rw [if_pos hb] at h
        cases ht : tryBlock bs with
        | none =>
            simp only [ht] at h
            exact Nat.lt_succ_of_lt (ih ty payload rest h)
        | some r =>
            simp only [ht] at h
            cases h
            exact Nat.lt_succ_of_lt (tryBlock_rest_lt bs ty payload rest ht)
      · rw [if_neg hb] at h
        exact Nat.lt_succ_of_lt (ih ty payload rest h)

/-- The remaining data after a successful `parsePublicKey` is strictly
shorter than its input. -/
lemma parsePublicKey_rest_lt (raw pub rest : Bytes)
    (h : parsePublicKey raw = .ok (pub, rest)) : rest.length < raw.length := by
  cases hd : pemDecode raw with
  | none => simp [parsePublicKey, hd] at h
  | some t =>
      obtain ⟨ty, bytes, r⟩ := t
      simp only [parsePublicKey, hd] at h
      split_ifs at h with h1 h2
      cases h
      exact pemDecode_rest_lt raw ty pub rest hd

/-- The parse loop does not depend on the fuel, as long as the fuel is
at least the length of the remaining data. -/
lemma parseAllKeysAux_congr : ∀ (f1 f2 : Nat) (raw : Bytes),
    raw.length ≤ f1 → raw.length ≤ f2 →
    parseAllKeysAux f1 raw = parseAllKeysAux f2 raw := by
  intro f1
  induction f1 with
  | zero =>
      intro f2 raw h1 h2
      have hnil : raw = [] := List.eq_nil_of_length_eq_zero (Nat.le_zero.mp h1)
      subst hnil
      cases f2 <;> simp [parseAllKeysAux]
  | succ f1 ih =>
      intro f2 raw h1 h2
      cases raw with
      | nil => cases f2 <;> simp [parseAllKeysAux]
      | cons a as =>
          cases f2 with
          | zero => simp at h2
          | succ f2 =>
              simp only [List.length_cons, Nat.succ_le_succ_iff] at h1 h2
              cases hp : parsePublicKey (a :: as) with
              | error e => simp [parseAllKeysAux, hp]
              | ok pr =>
                  obtain ⟨pub, rest⟩ := pr
                  have hlt : rest.length < as.length + 1 := by
                    have hr := parsePublicKey_rest_lt (a :: as) pub rest hp
                    simpa using hr
                  have hre : parseAllKeysAux f1 rest = parseAllKeysAux f2 rest :=
                    ih f2 rest (by omega) (by omega)
                  simp [parseAllKeysAux, hp, hre]

/-- If the bundle and its signature fetch successfully but the
signature does not validate against any root — or either fetch fails —
then `Client.signingKeys` fails. -/
lemma signingKeys_err_of_unverified (c : Client) (w : World)
    (h : ∀ raw sig, fetch w (c.url "distsign.pub") signingKeysSizeLimit = .ok raw →
      fetch w (c.url "distsign.pub" ++ ".sig") signatureSizeLimit = .ok sig →
      verifyAny c.roots raw sig ⟨HashMode.raw⟩ = false) :
    isErr (c.signingKeys w) = true := by
  simp only [Client.signingKeys]
  cases hf1 : fetch w (c.url "distsign.pub") signingKeysSizeLimit with
  | error e => simp [isErr]
  | ok raw =>
      cases hf2 : fetch w (c.url "distsign.pub" ++ ".sig") signatureSizeLimit with
      | error e => simp [isErr]
      | ok sig =>
          have hv := h raw sig hf1 hf2
          simp [hv, isErr]

/-- `Client.Download` fails, and leaves the file system untouched,
whenever `Client.signingKeys` fails. -/
lemma Download_err_of_signingKeys_err (c : Client) (w : World) (srcPath dstPath : String)
    (h : isErr (c.signingKeys w) = true) :
    isErr (c.Download w srcPath dstPath).1 = true ∧ (c.Download w srcPath dstPath).2 = w.fs := by
  cases hsk : c.signingKeys w with
  | error e => constructor <;> simp [Client.Download, hsk, isErr]
  | ok keys => rw [hsk] at h; simp [isErr] at h

/-- A successful `Client.signingKeys` never returns an empty key list. -/
lemma signingKeys_ok_ne_nil (c : Client) (w : World) (keys : List Bytes)
    (h : c.signingKeys w = .ok keys) : keys ≠ [] := by
  simp only [Client.signingKeys] at h
  cases hf1 : fetch w (c.url "distsign.pub") signingKeysSizeLimit with
  | error e => simp only [hf1] at h; exact Except.noConfusion h
  | ok raw =>
      simp only [hf1] at h
      cases hf2 : fetch w (c.url "distsign.pub" ++ ".sig") signatureSizeLimit with
      | error e => simp only [hf2] at h; exact Except.noConfusion h
      | ok sig =>
          simp only [hf2] at h
          by_cases hv : verifyAny c.roots raw sig ⟨HashMode.raw⟩ = true
          · rw [if_pos hv] at h
            cases hp : parseAllKeys raw with
            | error e => simp only [hp] at h; exact Except.noConfusion h
            | ok keys2 =>
                simp only [hp] at h
                by_cases hz : keys2 = []
                · rw [if_pos hz] at h; exact Except.noConfusion h
                · rw [if_neg hz] at h; cases h; exact hz
          · rw [if_neg hv] at h; exact Except.noConfusion h

/-- Claim C1: `verifyAny` returns true if and only if at least one key
in the list validates the signature over the message under the given
options. -/
theorem claim_C1_verifyAny_any_of (keys : List Bytes) (msg sig : Bytes)
    (opts : Ed25519Options) :
    verifyAny keys msg sig opts = true ↔
      ∃ k ∈ keys, VerifyWithOptions k msg sig opts = true := by
  simp [verifyAny, List.any_eq_true]

/-- Claim C2: if the fetched signing-key bundle does not validate
against any root key (or the bundle or its signature cannot be
fetched), `Client.Download` returns an error and nothing is written to
the file system, in particular nothing at `dstPath`. -/
theorem claim_C2_Download_aborts_when_bundle_untrusted (c : Client) (w : World)
    (srcPath dstPath : String)
    (h : ∀ raw sig, fetch w (c.url "distsign.pub") signingKeysSizeLimit = .ok raw →
      fetch w (c.url "distsign.pub" ++ ".sig") signatureSizeLimit = .ok sig →
      verifyAny c.roots raw sig ⟨HashMode.raw⟩ = false) :
    isErr (c.Download w srcPath dstPath).1 = true ∧
      (c.Download w srcPath dstPath).2 = w.fs :=
  Download_err_of_signingKeys_err c w srcPath dstPath (signingKeys_err_of_unverified c w h)

/-- Witness for claim C2 at a concrete client and world (the bundle
cannot be fetched at all). -/
theorem claim_C2_witness :
    isErr (cRoot1.Download wNone "tailscale.tgz" "out.tgz").1 = true ∧
      (cRoot1.Download wNone "tailscale.tgz" "out.tgz").2 = wNone.fs :=
  claim_C2_Download_aborts_when_bundle_untrusted cRoot1 wNone "tailscale.tgz" "out.tgz"
    (by intro raw sig hra hsb; simp [fetch, wNone] at hra)

/-- Claim C10: `verifyAny` with an empty key list is false, and a
client with an empty root-key set rejects every bundle and every
download (fails closed). -/
theorem claim_C10_fail_closed (c : Client) (w : World) (msg sig : Bytes)
    (opts : Ed25519Options) (srcPath dstPath : String) (h : c.roots = []) :
    verifyAny [] msg sig opts = false ∧ isErr (c.signingKeys w) = true ∧
      isErr (c.Download w srcPath dstPath).1 = true := by
  have hsk : isErr (c.signingKeys w) = true := by
    apply signingKeys_err_of_unverified
    intro raw sg hf1 hf2
    rw [h]
    rfl
  exact ⟨rfl, hsk, (Download_err_of_signingKeys_err c w srcPath dstPath hsk).1⟩

/-- Witness for claim C10 at a concrete empty-roots client. -/
theorem claim_C10_witness :
    verifyAny [] [1] [2] ⟨HashMode.raw⟩ = false ∧
      isErr (cEmpty.signingKeys wNone) = true ∧
      isErr (cEmpty.Download wNone "a" "b").1 = true :=
  claim_C10_fail_closed cEmpty wNone [1] [2] ⟨HashMode.raw⟩ "a" "b" rfl

/-- Counterexample to claim C3: `badBundle` starts with a malformed
(truncated) PEM block — `pemDecode` finds no well-formed block in those
two bytes alone — yet a correctly signed bundle containing that
malformed block followed by one well-formed key block is accepted by
`Client.signingKeys` with no error: the PEM decoder, like
`encoding/pem.Decode`, skips data that does not parse as a block. -/
theorem claim_C3_counterexample :
    pemDecode [pemBeginMark, pemTypePublic] = none ∧
      badBundle =
        [pemBeginMark, pemTypePublic] ++ pemEncodeBlock pemTypePublic (pubKeyBytes 2) ∧
      cRoot1.signingKeys wBadBundle = .ok [pubKeyBytes 2] :=
  ⟨by decide, rfl, by decide⟩

/-- Claim C3 (amended): for every fetched bundle whose signature
validates against a root key, `Client.signingKeys` returns an error
(rather than an empty list) when parsing yields zero public keys — a
correctly signed empty bundle is never accepted — and a decoded block
whose tag is not "PUBLIC KEY" or whose payload is not exactly the
Ed25519 public-key size makes the parse fail; undecodable data is an
error only when no well-formed block follows it (data preceding a
well-formed block is skipped, per `encoding/pem.Decode`). -/
theorem claim_C3_amended (c : Client) (w : World) :
    (∀ keys, c.signingKeys w = .ok keys → keys ≠ []) ∧
    (∀ raw sig, fetch w (c.url "distsign.pub") signingKeysSizeLimit = .ok raw →
      fetch w (c.url "distsign.pub" ++ ".sig") signatureSizeLimit = .ok sig →
      verifyAny c.roots raw sig ⟨HashMode.raw⟩ = true → raw = [] →
      isErr (c.signingKeys w) = true) ∧
    (∀ raw ty bytes rest, pemDecode raw = some (ty, bytes, rest) →
      (ty ≠ pemTypePublic ∨ bytes.length ≠ publicKeySize) →
      isErr (parseAllKeys raw) = true) ∧
    (∀ raw, raw ≠ [] → pemDecode raw = none → isErr (parseAllKeys raw) = true) ∧
    (∀ raw pub rest, parsePublicKey raw = .ok (pub, rest) →
      isErr (parseAllKeys rest) = true → isErr (parseAllKeys raw) = true) := by
  refine ⟨fun keys h => signingKeys_ok_ne_nil c w keys h, ?_, ?_, ?_, ?_⟩
  · intro raw sig h1 h2 hv hraw
    subst hraw
    simp [Client.signingKeys, h1, h2, hv, parseAllKeys, parseAllKeysAux, isErr]
  · intro raw ty bytes rest h hbad
    obtain ⟨e, he⟩ := parsePublicKey_error_of_bad raw ty bytes rest h hbad
    cases raw with
    | nil => simp [pemDecode] at h
    | cons a as => simp [parseAllKeys, parseAllKeysAux, he, isErr]
  · intro raw hne hdec
    cases raw with
    | nil => exact absurd rfl hne
    | cons a as => simp [parseAllKeys, parseAllKeysAux, parsePublicKey, hdec, isErr]
  · intro raw pub rest hp herr
    cases raw with
    | nil => simp [parsePublicKey, pemDecode] at hp
    | cons a as =>
        cases hres : parseAllKeys rest with
        | ok ks => rw [hres] at herr; simp [isErr] at herr
        | error e =>
            have hlt : rest.length < as.length + 1 := by
              have hr := parsePublicKey_rest_lt (a :: as) pub rest hp
              simpa using hr
            have hcg : parseAllKeysAux as.length rest = .error e := by
              rw [parseAllKeysAux_congr as.length rest.length rest (by omega) (Nat.le_refl _)]
              exact hres
            simp [parseAllKeys, parseAllKeysAux, hp, hcg, isErr]

/-- Witness for claim C3 (amended): a correctly signed empty bundle is
rejected. -/
theorem claim_C3_amended_witness :
    isErr (cRoot1.signingKeys wEmptyBundle) = true :=
  (claim_C3_amended cRoot1 wEmptyBundle).2.1 [] emptyBundleSig
    (by decide) (by decide) (by decide) rfl

/-- Claim C4: when `download` returns successfully, the returned value
is the SHA-512 digest of exactly the bytes written to the destination
file. -/
theorem claim_C4_download_digest (w : World) (url dst : String) (limit : Nat) (d : Bytes)
    (h : (download w url dst limit).res = .ok d) :
    ∃ content, lookupFile (download w url dst limit).fs dst = some content ∧
      d = sha512sum content := by
  cases hb : w.http url with
  | none => simp [download, hb] at h
  | some body =>
      by_cases hc : w.createOk dst = true
      · by_cases hcp : w.copyOk dst = true
        · by_cases hcl : w.closeOk dst = true
          · refine ⟨body.take limit, ?_, ?_⟩
            · simp [download, hb, hc, hcp, hcl, setFile, lookupFile]
            · simp [download, hb, hc, hcp, hcl] at h
              exact h.symm
          · simp [download, hb, hc, hcp, hcl] at h
        · simp [download, hb, hc, hcp] at h
      · simp [download, hb, hc] at h

/-- Witness for claim C4 at a concrete world: the digest returned for
the body `[1, 2, 3]` is the digest of the written file content. -/
theorem claim_C4_witness :
    (download wOK "https://pkgs/x" "x.tgz" 10).res = .ok (sha512sum [1, 2, 3]) ∧
      ∃ content, lookupFile (download wOK "https://pkgs/x" "x.tgz" 10).fs "x.tgz" =
          some content ∧ sha512sum [1, 2, 3] = sha512sum content :=
  ⟨by decide,
    claim_C4_download_digest wOK "https://pkgs/x" "x.tgz" 10 (sha512sum [1, 2, 3]) (by decide)⟩

/-- Counterexample to claim C5: the signature response body served by
`wOversizedSig` has length 65, not the scheme's fixed 64, yet it is not
rejected as malformed: `fetch` silently truncates it to its first 64
bytes and the truncated bytes are passed on to verification — here they
even verify, so the whole `signingKeys` call succeeds. -/
theorem claim_C5_counterexample :
    oversizedSigBody.length ≠ signatureSizeLimit ∧
      fetch wOversizedSig "https://pkgs/distsign.pub.sig" signatureSizeLimit =
        .ok goodBundleSig ∧
      cRoot1.signingKeys wOversizedSig = .ok [pubKeyBytes 2] :=
  ⟨by decide, by decide, by decide⟩

/-- Claim C5 (amended): a signature response body is never rejected for
its length: `fetch` with the signature size limit returns, without
error, the body truncated to its first 64 bytes (a body of 64 bytes or
fewer is passed through unchanged), and any length mismatch can
surface only later, as a signature verification failure. -/
theorem claim_C5_amended (w : World) (url : String) (body : Bytes)
    (h : w.http url = some body) :
    fetch w url signatureSizeLimit = .ok (body.take signatureSizeLimit) ∧
      (body.take signatureSizeLimit).length ≤ signatureSizeLimit ∧
      (body.length ≤ signatureSizeLimit → body.take signatureSizeLimit = body) := by
  refine ⟨by simp [fetch, h], ?_, ?_⟩
  · rw [List.length_take]
    exact min_le_left _ _
  · intro hle
    exact List.take_of_length_le hle

/-- Witness for claim C5 (amended) at the oversized signature body. -/
theorem claim_C5_amended_witness :
    fetch wOversizedSig "https://pkgs/distsign.pub.sig" signatureSizeLimit =
      .ok (oversizedSigBody.take signatureSizeLimit) ∧
      (oversizedSigBody.take signatureSizeLimit).length ≤ signatureSizeLimit ∧
      (oversizedSigBody.length ≤ signatureSizeLimit →
        oversizedSigBody.take signatureSizeLimit = oversizedSigBody) :=
  claim_C5_amended wOversizedSig "https://pkgs/distsign.pub.sig" oversizedSigBody (by decide)

/-- Claim C6: when the transport succeeds, `fetch` returns without
error the first `limit` bytes of the body — at most `limit` bytes, with
the excess silently discarded. -/
theorem claim_C6_fetch_limit (w : World) (url : String) (limit : Nat) (body : Bytes)
    (h : w.http url = some body) :
    fetch w url limit = .ok (body.take limit) ∧ (body.take limit).length ≤ limit := by
  refine ⟨by simp [fetch, h], ?_⟩
  rw [List.length_take]
  exact min_le_left _ _

/-- Witness for claim C6: a three-byte body fetched with limit 2. -/
theorem claim_C6_witness :
    fetch wOK "https://pkgs/big" 2 = .ok (([1, 2, 3] : Bytes).take 2) ∧
      (([1, 2, 3] : Bytes).take 2).length ≤ 2 :=
  claim_C6_fetch_limit wOK "https://pkgs/big" 2 [1, 2, 3] rfl

/-- Claim C7: round trip for a generated key pair, in both modes: a
bundle signed with `RootKey.SignSigningKeys` (raw, no pre-hash)
validates under `verifyAny` with the no-hash option, and a SHA-512
digest signed with `SigningKey.SignPackageHash` validates under
`verifyAny` with the SHA-512 pre-hash option. -/
theorem claim_C7_round_trip (k : Nat) (bundle pkg : Bytes) :
    (∃ sig, RootKey.SignSigningKeys (Signer.mk (privKeyBytes k)) bundle = .ok sig ∧
      verifyAny [pubKeyBytes k] bundle sig ⟨HashMode.raw⟩ = true) ∧
    (∃ sig, SigningKey.SignPackageHash (Signer.mk (privKeyBytes k)) (sha512sum pkg) =
        .ok sig ∧
      verifyAny [pubKeyBytes k] (sha512sum pkg) sig ⟨HashMode.sha512⟩ = true) := by
  constructor
  · refine ⟨mkSig (pubKeyBytes k) bundle .raw, ?_, ?_⟩
    · simp [RootKey.SignSigningKeys, Signer.Sign, privKeyBytes, privateKeySize,
        privToPub, pubKeyBytes]
    · have hv := VerifyWithOptions_mkSig (pubKeyBytes k) bundle .raw
        (pubKeyBytes_length k) (fun hc => HashMode.noConfusion hc)
      simp [verifyAny, hv]
  · refine ⟨mkSig (pubKeyBytes k) (sha512sum pkg) .sha512, ?_, ?_⟩
    · simp [SigningKey.SignPackageHash, Signer.Sign, privKeyBytes, privateKeySize,
        privToPub, pubKeyBytes, sha512sum_length]
    · have hv := VerifyWithOptions_mkSig (pubKeyBytes k) (sha512sum pkg) .sha512
        (pubKeyBytes_length k) (fun _ => sha512sum_length pkg)
      simp [verifyAny, hv]

/-- Claim C8: the destination file of `download` is closed on every
path where it was opened; a successful result implies the final close
(and the copy) succeeded; and in particular when the body is copied
successfully but the final close fails, `download` returns an error,
never a success. -/
theorem claim_C8_close_observed (w : World) (url dst : String) (limit : Nat) :
    ((download w url dst limit).opened = true → (download w url dst limit).closed = true) ∧
    (∀ d, (download w url dst limit).res = .ok d →
      w.closeOk dst = true ∧ w.copyOk dst = true) ∧
    (∀ body, w.http url = some body → w.createOk dst = true → w.copyOk dst = true →
      w.closeOk dst = false → isErr (download w url dst limit).res = true) := by
  cases hb : w.http url with
  | none => refine ⟨?_, ?_, ?_⟩ <;> simp [download, hb, isErr]
  | some body =>
      by_cases hc : w.createOk dst = true
      · by_cases hcp : w.copyOk dst = true
        · by_cases hcl : w.closeOk dst = true
          · refine ⟨?_, ?_, ?_⟩ <;> simp [download, hb, hc, hcp, hcl, isErr]
          · refine ⟨?_, ?_, ?_⟩ <;> simp [download, hb, hc, hcp, hcl, isErr]
        · refine ⟨?_, ?_, ?_⟩ <;> simp [download, hb, hc, hcp, isErr]
      · refine ⟨?_, ?_, ?_⟩ <;> simp [download, hb, hc, isErr]

/-- Witness for claim C8: a world where the body downloads fine but
the final close of the destination file fails yields an error. -/
theorem claim_C8_witness :
    isErr (download wCloseFail "https://pkgs/x" "x.tgz" 10).res = true :=
  (claim_C8_close_observed wCloseFail "https://pkgs/x" "x.tgz" 10).2.2 [1, 2, 3]
    rfl rfl rfl rfl

/-- Claim C9: `NewSigner` fails exactly when the file is unreadable,
the contents do not decode as a PEM block, trailing data follows the
block, the tag is not "PRIVATE KEY", or the payload is not exactly the
Ed25519 private-key size; otherwise it returns the `Signer` wrapping
the decoded private key. -/
theorem claim_C9_NewSigner (w : World) (p : String) :
    (lookupFile w.fs p = none → isErr (NewSigner w p) = true) ∧
    (∀ raw s, lookupFile w.fs p = some raw →
      (NewSigner w p = .ok s ↔
        (pemDecode raw = some (pemTypePrivate, s.key, []) ∧
          s.key.length = privateKeySize))) := by
  constructor
  · intro h
    simp [NewSigner, h, isErr]
  · intro raw s h
    obtain ⟨skey⟩ := s
    simp only [NewSigner, h]
    cases hp : parsePrivateKey raw with
    | error e =>
        constructor
        · intro hco; exact Except.noConfusion hco
        · intro ⟨hdec, hlen⟩
          have hok : parsePrivateKey raw = .ok skey :=
            (parsePrivateKey_ok_iff raw skey).mpr ⟨hdec, hlen⟩
          rw [hp] at hok
          exact Except.noConfusion hok
    | ok kk =>
        have hkk := (parsePrivateKey_ok_iff raw kk).mp hp
        constructor
        · intro hco
          cases hco
          exact hkk
        · intro ⟨hdec, hlen⟩
          rw [hkk.1] at hdec
          cases hdec
          rfl

/-- Witness for claim C9: a well-formed private key file loads into
the `Signer` wrapping the decoded key. -/
theorem claim_C9_witness :
    NewSigner wKey "key.pem" = .ok (Signer.mk (privKeyBytes 5)) :=
  ((claim_C9_NewSigner wKey "key.pem").2 (pemEncodeBlock pemTypePrivate (privKeyBytes 5))
      (Signer.mk (privKeyBytes 5)) (by decide)).mpr (by decide)

end Distsign
